import Mathlib

/-!
Shallow embedding of the memory utilities in
`include/deans_utilities/memory.h` and `include/deans_utilities/ranges.h`.

Pointers are modelled as natural-number addresses (`0` plays the role of the
null pointer); byte memory is modelled as a total function `Nat → Nat`.
Machine-integer arithmetic (`uint32_t`, `size_t`) is modelled on `Nat`: every
quantity involved is a vector length or pointer difference that the source
keeps far below any wrap-around in the scenarios of interest.
-/

set_option autoImplicit false
set_option linter.unusedVariables false

namespace memory

/-- Model of `memory::region`: a non-owning view `{startPtr, endPtr}` of a
contiguous byte range.  The null pointer is modelled by address `0`. -/
structure region where
  startPtr : Nat
  endPtr : Nat
deriving DecidableEq, Repr

/-- Model of `region::size()`: `endPtr - startPtr` (pointer difference). -/
def region.size (r : region) : Nat :=
  r.endPtr - r.startPtr

/-- Model of the move constructor `region(region &&other)`: the new region
copies `other`'s pointers, then `other`'s pointers are set to null.  Returns
`(constructed region, state of the moved-from source afterwards)`. -/
def region.moveConstruct (other : region) : region × region :=
  (⟨other.startPtr, other.endPtr⟩, ⟨0, 0⟩)

/-- Model of the move assignment `operator=(region &&other)`: the target takes
`other`'s pointers and `other`'s pointers are set to null.  Returns
`(state of the target afterwards, state of the moved-from source afterwards)`. -/
def region.moveAssign (target other : region) : region × region :=
  (⟨other.startPtr, other.endPtr⟩, ⟨0, 0⟩)

/-- Model of the copy constructor `region(const region &other)`: the new region
copies `other`'s pointers and `other` is left untouched. -/
def region.copyConstruct (other : region) : region × region :=
  (⟨other.startPtr, other.endPtr⟩, other)

/-- Model of the copy assignment `operator=(const region &other)`. -/
def region.copyAssign (target other : region) : region × region :=
  (⟨other.startPtr, other.endPtr⟩, other)

/-- Model of `memcpy(dest, src, amount)` on byte memory `mem : Nat → Nat`:
addresses `dest, dest+1, …, dest+amount-1` take the bytes `src 0 … src (amount-1)`
of the source, every other address is untouched. -/
def memcpy (mem : Nat → Nat) (dest : Nat) (src : Nat → Nat) (amount : Nat) :
    Nat → Nat :=
  fun a => if dest ≤ a ∧ a < dest + amount then src (a - dest) else mem a

/-- Model of `memory::writer_base`: it stores only the write cursor
`writeStart`; the buffer end is passed to each operation by the caller. -/
structure writer_base where
  writeStart : Nat
deriving DecidableEq, Repr

/-- Model of `writer_base::write(bufferEnd, src, amount)`:
`writeEnd = writeStart + amount`; if `writeEnd <= bufferEnd` the bytes are
copied, the cursor advances to `writeEnd` and `true` is returned; otherwise
nothing happens and `false` is returned.  Memory is threaded explicitly, so
the result is `(success, new writer_base, new memory)`. -/
def writer_base.write (wb : writer_base) (mem : Nat → Nat) (bufferEnd : Nat)
    (src : Nat → Nat) (amount : Nat) : Bool × writer_base × (Nat → Nat) :=
  if wb.writeStart + amount ≤ bufferEnd then
    (true, ⟨wb.writeStart + amount⟩, memcpy mem wb.writeStart src amount)
  else
    (false, wb, mem)

/-- Model of `writer_base::bytes_remaining(bufferEnd)`: `bufferEnd - writeStart`. -/
def writer_base.bytes_remaining (wb : writer_base) (bufferEnd : Nat) : Nat :=
  bufferEnd - wb.writeStart

/-- Model of `memory::writer`, which inherits publicly from `region` and
privately from `writer_base`. -/
structure writer extends region, writer_base
deriving DecidableEq, Repr

/-- Model of the constructor `writer(region destination)`: the region subobject
is `destination` and the cursor starts at `destination.startPtr`. -/
def writer.ofRegion (destination : region) : writer :=
  ⟨destination, ⟨destination.startPtr⟩⟩

/-- Model of `writer::write(src, amount)`: forwards to `writer_base::write`
with the region's `endPtr` as the buffer end. -/
def writer.write (w : writer) (mem : Nat → Nat) (src : Nat → Nat)
    (amount : Nat) : Bool × writer × (Nat → Nat) :=
  let r := w.towriter_base.write mem w.endPtr src amount
  (r.1, ⟨w.toregion, r.2.1⟩, r.2.2)

/-- Model of `writer::bytes_remaining()`. -/
def writer.bytes_remaining (w : writer) : Nat :=
  w.towriter_base.bytes_remaining w.endPtr

/-- Model of `writer::bytes_written()`: `writeStart - region.startPtr`. -/
def writer.bytes_written (w : writer) : Nat :=
  w.writeStart - w.startPtr

/-- Model of `writer::reset()`: sets the cursor back to `region.startPtr`.
The source body assigns only the cursor field, so the operation has type
`writer → writer` and cannot touch byte memory. -/
def writer.reset (w : writer) : writer :=
  ⟨w.toregion, ⟨w.startPtr⟩⟩

/-- A step of a `writer` interacting with byte memory: one call of
`writer::write(src, amount)`. -/
inductive WOp where
  | write (src : Nat → Nat) (amount : Nat)

/-- One `WOp` applied to a `(writer, memory)` pair. -/
def writer.step (s : writer × (Nat → Nat)) (op : WOp) : writer × (Nat → Nat) :=
  match op with
  | WOp.write src amount =>
    let r := s.1.write s.2 src amount
    (r.2.1, r.2.2)

/-- A sequence of `writer::write` calls applied to a `(writer, memory)` pair. -/
def writer.runOps (s : writer × (Nat → Nat)) (ops : List WOp) :
    writer × (Nat → Nat) :=
  ops.foldl writer.step s

/-- `writer::reset()` as an operation on the `(writer, memory)` pair: the
source body assigns only the cursor, so the memory component is returned
untouched. -/
def writer.resetOp (s : writer × (Nat → Nat)) : writer × (Nat → Nat) :=
  (s.1.reset, s.2)

/-- Model of `memory::small_writer`: inherits privately from `writer_base`
and stores the buffer end.  (The source also declares two private members
`writeStart`/`bufferEnd` with default `nullptr`; the shadowing `writeStart`
is dead — every member function uses `writer_base::writeStart` — and
`bufferEnd` is the member initialised by the constructor, modelled here.) -/
structure small_writer extends writer_base where
  bufferEnd : Nat
deriving DecidableEq, Repr

/-- Model of the constructor `small_writer(region destination)`. -/
def small_writer.ofRegion (destination : region) : small_writer :=
  ⟨⟨destination.startPtr⟩, destination.endPtr⟩

/-- Model of `small_writer::write(src, amount)`: forwards to
`writer_base::write` with the stored `bufferEnd`. -/
def small_writer.write (sw : small_writer) (mem : Nat → Nat) (src : Nat → Nat)
    (amount : Nat) : Bool × small_writer × (Nat → Nat) :=
  let r := sw.towriter_base.write mem sw.bufferEnd src amount
  (r.1, ⟨r.2.1, sw.bufferEnd⟩, r.2.2)

/-- Model of `small_writer::bytes_remaining()`.  The source declares the
return type `bool` (although its doc comment documents `@return size_type`),
so the `size_t` count produced by `writer_base::bytes_remaining` is
implicitly converted to `bool`: nonzero becomes `true`, zero becomes `false`. -/
def small_writer.bytes_remaining (sw : small_writer) : Bool :=
  sw.towriter_base.bytes_remaining sw.bufferEnd != 0

/-- Model of `strlen` for a C string given as the list of its bytes: the
number of characters before the first zero byte. -/
def strlen (s : List Nat) : Nat :=
  (s.takeWhile (fun c => c != 0)).length

/-- The byte at offset `i` (for `i < amount`) that `strncpy(dest, src, amount)`
stores: the source character while `i` is below `strlen src`, and a zero fill
afterwards. -/
def strncpyByte (src : List Nat) (i : Nat) : Nat :=
  if i < strlen src then src.getD i 0 else 0

/-- Model of `memory::unsafe::writer` (the unchecked writer variant): a bare
write pointer, no bounds. -/
structure unchecked_writer where
  writeDest : Nat
deriving DecidableEq, Repr

/-- Model of `unsafe::writer::write_str(src, amount)`:
`strncpy((char*)writeDest, src, amount)` followed by `writeDest += amount`.
`strncpy` stores exactly `amount` bytes at `writeDest`: the characters of
`src` up to its terminator, then zero fill; the cursor advances by `amount`
unconditionally. -/
def unchecked_writer.write_str (w : unchecked_writer) (mem : Nat → Nat)
    (src : List Nat) (amount : Nat) : unchecked_writer × (Nat → Nat) :=
  (⟨w.writeDest + amount⟩,
   fun a =>
     if w.writeDest ≤ a ∧ a < w.writeDest + amount then
       strncpyByte src (a - w.writeDest)
     else mem a)

/-- Model of `memory::resource`: an owning block, `{ptr, size}`. -/
structure resource where
  ptr : Nat
  size : Nat
deriving DecidableEq, Repr

/-- Model of `resource::operator region()`: `region(ptr, ptr + size)`. -/
def resource.toRegionView (r : resource) : region :=
  ⟨r.ptr, r.ptr + r.size⟩

/-- Model of `amount` consecutive evaluations of `resource(resourceSize)`
(`new uint8_t[resourceSize]` each time).  The heap is modelled by a
next-fresh-address counter, so consecutive allocations give the fresh,
pairwise disjoint address ranges `heap`, `heap + resourceSize`, ….  Returns
the allocated resources in creation order together with the new counter. -/
def allocResources (heap resourceSize : Nat) : Nat → List resource × Nat
  | 0 => ([], heap)
  | amount + 1 =>
    let rest := allocResources (heap + resourceSize) resourceSize amount
    (⟨heap, resourceSize⟩ :: rest.1, rest.2)

end memory

namespace ranges

/-- Model of `ranges::append_range(dest, src)` at the type it is used at in
`memory.h` (`dest` a growable sequence of regions): `dest.resize(dest.size() +
src.size())` followed by copying `src` to the old end, i.e. list append. -/
def append_range (dest src : List memory.region) : List memory.region :=
  dest ++ src

end ranges

namespace memory

/-- Model of `memory::resource_allocator`: it owns the growable sequence
`regions` of resources it ever created. -/
structure resource_allocator where
  regions : List resource
deriving DecidableEq, Repr

/-- Model of `resource_allocator::alloc_objects(resourceSize, amount, dest)`:
grows `regions` by `amount` fresh resources of `resourceSize` bytes each
(`regions.resize` followed by move-assigning each new slot from
`resource(resourceSize)`), then appends their region views, in creation
order, to `dest` via `ranges::append_range`.  Returns
`(new allocator, new heap counter, new dest)`. -/
def resource_allocator.alloc_objects (a : resource_allocator)
    (heap resourceSize amount : Nat) (dest : List region) :
    resource_allocator × Nat × List region :=
  let fresh := allocResources heap resourceSize amount
  (⟨a.regions ++ fresh.1⟩, fresh.2,
   ranges.append_range dest (fresh.1.map resource.toRegionView))

/-- Model of `memory::resource_pool`. -/
structure resource_pool where
  resourceSize : Nat
  allocationAmount : Nat
  available : List region
  allocator : resource_allocator
deriving DecidableEq, Repr

/-- Model of `resource_pool::alloc_regions(allocationAmount)`: delegates to
`allocator.alloc_objects(resourceSize, allocationAmount, available)`. -/
def resource_pool.alloc_regions (p : resource_pool) (heap amount : Nat) :
    resource_pool × Nat :=
  let r := p.allocator.alloc_objects heap p.resourceSize amount p.available
  ({ p with allocator := r.1, available := r.2.2 }, r.2.1)

/-- Model of the constructor `resource_pool(resourceSize, allocationAmount)`:
stores both parameters and performs the initial
`alloc_regions(allocationAmount)`.  (The source asserts both parameters are
nonzero.) -/
def resource_pool.construct (resourceSize allocationAmount heap : Nat) :
    resource_pool × Nat :=
  resource_pool.alloc_regions
    ⟨resourceSize, allocationAmount, [], ⟨[]⟩⟩ heap allocationAmount

/-- The growth step at the head of `resource_pool::acquire()`:
`if (available.empty()) alloc_regions(allocationAmount);`. -/
def resource_pool.grow_step (p : resource_pool) (heap : Nat) :
    resource_pool × Nat :=
  if p.available.isEmpty then p.alloc_regions heap p.allocationAmount
  else (p, heap)

/-- Model of `resource_pool::acquire()`: after the growth step, returns
`available.back()` and pops it.  (`back()`/`pop_back()` on an empty vector
would be undefined in the source; the model uses the last element with a
default, and the development shows the list is never empty at this point
when `allocationAmount` is nonzero.) -/
def resource_pool.acquire (p : resource_pool) (heap : Nat) :
    region × resource_pool × Nat :=
  let s := p.grow_step heap
  (s.1.available.getLastD ⟨0, 0⟩,
   { s.1 with available := s.1.available.dropLast }, s.2)

/-- Model of `resource_pool::acquire(count)` (bulk acquire): if fewer than
`count` regions are available, grows by `allocationAmount + count -
available.size()`; then copies the last `count` entries of `available`
(starting at `copyStart = available.size() - count`) into the returned
vector.  Note the source never erases the copied entries from `available`. -/
def resource_pool.acquire_bulk (p : resource_pool) (heap count : Nat) :
    List region × resource_pool × Nat :=
  let s :=
    if p.available.length < count then
      p.alloc_regions heap (p.allocationAmount + count - p.available.length)
    else (p, heap)
  (s.1.available.drop (s.1.available.length - count), s.1, s.2)

/-- Model of `resource_pool::release(target)`: `available.push_back(target)`. -/
def resource_pool.release (p : resource_pool) (target : region) :
    resource_pool :=
  { p with available := p.available ++ [target] }

/-- Model of the bulk `resource_pool::release(regionRange)`:
`ranges::append_range(available, regionRange)`. -/
def resource_pool.release_range (p : resource_pool) (rs : List region) :
    resource_pool :=
  { p with available := ranges.append_range p.available rs }

/-- A pool operation: one of the four public mutators of `resource_pool`. -/
inductive PoolOp where
  | acquireOne
  | acquireBulk (count : Nat)
  | releaseOne (r : region)
  | releaseRange (rs : List region)

/-- One `PoolOp` applied to a `(pool, heap)` pair. -/
def resource_pool.step (s : resource_pool × Nat) (op : PoolOp) :
    resource_pool × Nat :=
  match op with
  | PoolOp.acquireOne => (s.1.acquire s.2).2
  | PoolOp.acquireBulk count => (s.1.acquire_bulk s.2 count).2
  | PoolOp.releaseOne r => (s.1.release r, s.2)
  | PoolOp.releaseRange rs => (s.1.release_range rs, s.2)

/-- A sequence of pool operations applied to a `(pool, heap)` pair. -/
def resource_pool.runPoolOps (s : resource_pool × Nat) (ops : List PoolOp) :
    resource_pool × Nat :=
  ops.foldl resource_pool.step s

/-- Iterated `resource_pool::acquire()`: `n` single acquires applied to a
`(pool, heap)` pair, discarding the returned regions. -/
def resource_pool.acquireN (s : resource_pool × Nat) : Nat → resource_pool × Nat
  | 0 => s
  | n + 1 =>
    let t := resource_pool.acquireN s n
    (t.1.acquire t.2).2

/-! Helper lemmas shared by the claim theorems. -/

/-- `memcpy` inside the destination range: byte `a` takes `src (a - dest)`. -/
theorem memcpy_inside (mem src : Nat → Nat) (dest amount a : Nat)
    (h1 : dest ≤ a) (h2 : a < dest + amount) :
    memcpy mem dest src amount a = src (a - dest) := by
  simp [memcpy, h1, h2]

/-- `memcpy` outside the destination range: byte `a` is untouched. -/
theorem memcpy_outside (mem src : Nat → Nat) (dest amount a : Nat)
    (h : a < dest ∨ dest + amount ≤ a) :
    memcpy mem dest src amount a = mem a := by
  rcases h with h | h
  · simp [memcpy]
    intro hle
    omega
  · simp [memcpy]
    intro hle
    omega

/-- `allocResources` produces exactly `amount` resources. -/
theorem allocResources_length (amount heap resourceSize : Nat) :
    (allocResources heap resourceSize amount).1.length = amount := by
  induction amount generalizing heap with
  | zero => rfl
  | succ n ih => simp [allocResources, ih]

/-- Every region view of an `allocResources` batch has size `resourceSize`. -/
theorem allocResources_sizes (amount heap resourceSize : Nat) :
    (((allocResources heap resourceSize amount).1.map resource.toRegionView).all
      (fun rg => rg.size == resourceSize)) = true := by
  induction amount generalizing heap with
  | zero => rfl
  | succ n ih =>
    simp only [allocResources, List.map_cons, List.all_cons, Bool.and_eq_true]
    exact ⟨by simp [resource.toRegionView, region.size], ih (heap + resourceSize)⟩

/-- Effect of `resource_pool::alloc_regions` on the lengths of the free list
and of the allocator's owned sequence; configuration fields are untouched. -/
theorem alloc_regions_lengths (p : resource_pool) (heap n : Nat) :
    (p.alloc_regions heap n).1.available.length = p.available.length + n ∧
    (p.alloc_regions heap n).1.allocator.regions.length =
      p.allocator.regions.length + n ∧
    (p.alloc_regions heap n).1.allocationAmount = p.allocationAmount ∧
    (p.alloc_regions heap n).1.resourceSize = p.resourceSize := by
  simp [resource_pool.alloc_regions, resource_allocator.alloc_objects,
    ranges.append_range, allocResources_length]

/-- A single `writer` step does not change the region subobject. -/
theorem writer_step_toregion (s : writer × (Nat → Nat)) (op : WOp) :
    (writer.step s op).1.toregion = s.1.toregion := by
  cases op with
  | write src amount =>
    simp only [writer.step, writer.write]

/-- Any sequence of `writer::write` calls leaves the region subobject as it
was. -/
theorem runOps_toregion (ops : List WOp) (s : writer × (Nat → Nat)) :
    (writer.runOps s ops).1.toregion = s.1.toregion := by
  induction ops generalizing s with
  | nil => rfl
  | cons op rest ih =>
    simpa only [writer.runOps, List.foldl_cons] using
      (ih (writer.step s op)).trans (writer_step_toregion s op)

/-- `resource_pool::acquire()` on a nonempty free list: no growth happens,
the tail is popped, everything else (allocator, configuration, heap) is
untouched. -/
theorem acquire_of_nonempty (p : resource_pool) (heap : Nat)
    (h : 0 < p.available.length) :
    (p.acquire heap).2.1.available.length = p.available.length - 1 ∧
    (p.acquire heap).2.1.allocator = p.allocator ∧
    (p.acquire heap).2.1.allocationAmount = p.allocationAmount ∧
    (p.acquire heap).2.1.resourceSize = p.resourceSize ∧
    (p.acquire heap).2.2 = heap := by
  have hne : p.available.isEmpty = false := by
    cases hv : p.available with
    | nil => rw [hv] at h; exact absurd h (by simp)
    | cons b l => rfl
  refine ⟨?_, ?_, ?_, ?_, ?_⟩ <;>
    simp [resource_pool.acquire, resource_pool.grow_step, hne,
      List.length_dropLast]

/-- `resource_pool::acquire()` on an empty free list: one growth of
`allocationAmount` regions happens, then the tail is popped. -/
theorem acquire_of_empty (p : resource_pool) (heap : Nat)
    (h : p.available = []) :
    (p.acquire heap).2.1.available.length = p.allocationAmount - 1 ∧
    (p.acquire heap).2.1.allocator.regions.length =
      p.allocator.regions.length + p.allocationAmount ∧
    (p.acquire heap).2.1.allocationAmount = p.allocationAmount ∧
    (p.acquire heap).2.1.resourceSize = p.resourceSize := by
  refine ⟨?_, ?_, ?_, ?_⟩ <;>
    simp [resource_pool.acquire, resource_pool.grow_step, h,
      resource_pool.alloc_regions, resource_allocator.alloc_objects,
      ranges.append_range, allocResources_length, List.length_dropLast]

/-- State invariant of `k ≤ A` single acquires on a pool freshly constructed
with `resource_pool(R, A)`: the free list shrank to `A - k` entries, the
allocator still owns exactly the `A` initially created blocks (no further
growth), and the configuration fields are unchanged. -/
theorem acquireN_construct_invariant (R A heap : Nat) :
    ∀ k, k ≤ A →
    (resource_pool.acquireN (resource_pool.construct R A heap) k).1.available.length = A - k ∧
    (resource_pool.acquireN (resource_pool.construct R A heap) k).1.allocator.regions.length = A ∧
    (resource_pool.acquireN (resource_pool.construct R A heap) k).1.allocationAmount = A ∧
    (resource_pool.acquireN (resource_pool.construct R A heap) k).1.resourceSize = R := by
  intro k
  induction k with
  | zero =>
    intro _
    refine ⟨?_, ?_, ?_, ?_⟩ <;>
      simp [resource_pool.acquireN, resource_pool.construct,
        resource_pool.alloc_regions, resource_allocator.alloc_objects,
        ranges.append_range, allocResources_length]
  | succ n ih =>
    intro hk
    obtain ⟨h1, h2, h3, h4⟩ := ih (Nat.le_of_succ_le hk)
    have hpos : 0 < A - n := Nat.sub_pos_of_lt (Nat.lt_of_succ_le hk)
    have hlen : 0 <
        (resource_pool.acquireN (resource_pool.construct R A heap) n).1.available.length := by
      rw [h1]; exact hpos
    obtain ⟨g1, g2, g3, g4, g5⟩ :=
      acquire_of_nonempty
        (resource_pool.acquireN (resource_pool.construct R A heap) n).1
        (resource_pool.acquireN (resource_pool.construct R A heap) n).2 hlen
    refine ⟨?_, ?_, ?_, ?_⟩
    · show (resource_pool.acquireN (resource_pool.construct R A heap) (n + 1)).1.available.length = A - (n + 1)
      rw [resource_pool.acquireN, g1, h1, Nat.sub_sub]
    · show (resource_pool.acquireN (resource_pool.construct R A heap) (n + 1)).1.allocator.regions.length = A
      rw [resource_pool.acquireN, g2, h2]
    · show (resource_pool.acquireN (resource_pool.construct R A heap) (n + 1)).1.allocationAmount = A
      rw [resource_pool.acquireN, g3, h3]
    · show (resource_pool.acquireN (resource_pool.construct R A heap) (n + 1)).1.resourceSize = R
      rw [resource_pool.acquireN, g4, h4]

/-- A single pool operation never changes the pool's `allocationAmount`. -/
theorem step_allocationAmount (s : resource_pool × Nat) (op : PoolOp) :
    (resource_pool.step s op).1.allocationAmount = s.1.allocationAmount := by
  cases op with
  | acquireOne =>
    by_cases h : s.1.available.isEmpty <;>
      simp [resource_pool.step, resource_pool.acquire, resource_pool.grow_step,
        h, resource_pool.alloc_regions, resource_allocator.alloc_objects]
  | acquireBulk count =>
    by_cases h : s.1.available.length < count <;>
      simp [resource_pool.step, resource_pool.acquire_bulk, h,
        resource_pool.alloc_regions, resource_allocator.alloc_objects]
  | releaseOne r => rfl
  | releaseRange rs => rfl

/-- No sequence of pool operations changes the pool's `allocationAmount`. -/
theorem runPoolOps_allocationAmount (ops : List PoolOp)
    (s : resource_pool × Nat) :
    (resource_pool.runPoolOps s ops).1.allocationAmount =
      s.1.allocationAmount := by
  induction ops generalizing s with
  | nil => rfl
  | cons op rest ih =>
    simpa only [resource_pool.runPoolOps, List.foldl_cons] using
      (ih (resource_pool.step s op)).trans (step_allocationAmount s op)

/-- After the growth step at the head of `acquire()`, the free list of a pool
with nonzero `allocationAmount` is never empty. -/
theorem grow_step_nonempty (p : resource_pool) (heap : Nat)
    (hA : 1 ≤ p.allocationAmount) :
    (p.grow_step heap).1.available.isEmpty = false := by
  cases hv : p.available with
  | nil =>
    cases hf : (allocResources heap p.resourceSize p.allocationAmount).1 with
    | nil =>
      have hl := allocResources_length p.allocationAmount heap p.resourceSize
      rw [hf] at hl
      simp at hl
      omega
    | cons b m =>
      simp [resource_pool.grow_step, hv, resource_pool.alloc_regions,
        resource_allocator.alloc_objects, ranges.append_range, hf]
  | cons b l =>
    simp [resource_pool.grow_step, hv]

/-! Claim theorems. -/

/-- C2: `writer::write(src, amount)` succeeds exactly when
`cursor + amount ≤ region.end`; on success it copies the `amount` bytes of
`src` to the cursor position (`memcpy`), advances the cursor by `amount` and
returns `true`; otherwise it returns `false` and leaves the writer (cursor,
hence `bytes_written()`) and the byte memory completely unchanged.  The
operation is a total function returning a Boolean — failure is never
signalled by a thrown error. -/
theorem writer_write_spec (w : writer) (mem src : Nat → Nat) (amount : Nat) :
    w.write mem src amount =
      (if w.writeStart + amount ≤ w.endPtr then
        (true, ⟨w.toregion, ⟨w.writeStart + amount⟩⟩,
          memcpy mem w.writeStart src amount)
      else (false, w, mem)) ∧
    (w.write mem src amount).1 = decide (w.writeStart + amount ≤ w.endPtr) := by
  by_cases h : w.writeStart + amount ≤ w.endPtr <;>
    simp [writer.write, writer_base.write, h]

/-- C3: the free list is a stack.  `release(x)` appends `x` at the tail of
`available`; an immediately following `acquire()` performs no growth (the
list is nonempty), removes the tail element and returns exactly `x`,
restoring the original free list and allocating nothing. -/
theorem release_acquire_lifo (p : resource_pool) (heap : Nat) (x : region) :
    (p.release x).available = p.available ++ [x] ∧
    ((p.release x).acquire heap).1 = x ∧
    ((p.release x).acquire heap).2.1.available = p.available ∧
    ((p.release x).acquire heap).2.2 = heap := by
  refine ⟨rfl, ?_, ?_, ?_⟩ <;>
    simp [resource_pool.acquire, resource_pool.grow_step, resource_pool.release,
      List.getLastD_concat, List.dropLast_concat]

/-- C9: `unsafe::writer::write_str(src, amount)` always advances the cursor
by exactly `amount`; the `amount` bytes starting at the old cursor become the
characters of `src` up to `min(strlen(src), amount)` followed by zero fill,
and no byte outside that range is touched (in particular no terminating zero
is stored beyond the `amount` bytes when `strlen(src) ≥ amount`). -/
theorem write_str_spec (w : unchecked_writer) (mem : Nat → Nat)
    (src : List Nat) (amount : Nat) :
    (w.write_str mem src amount).1.writeDest = w.writeDest + amount ∧
    (w.write_str mem src amount).2 = (fun a =>
      if w.writeDest ≤ a ∧ a < w.writeDest + amount then
        strncpyByte src (a - w.writeDest)
      else mem a) ∧
    ((List.range amount).all (fun i =>
      (w.write_str mem src amount).2 (w.writeDest + i) ==
        if i < min (strlen src) amount then src.getD i 0 else 0)) = true := by
  refine ⟨rfl, rfl, ?_⟩
  apply List.all_eq_true.mpr
  intro i hi
  have hia : i < amount := List.mem_range.mp hi
  have h1 : w.writeDest ≤ w.writeDest + i := Nat.le_add_right _ _
  have h2 : w.writeDest + i < w.writeDest + amount := Nat.add_lt_add_left hia _
  rw [beq_iff_eq]
  simp only [unchecked_writer.write_str, h1, h2, and_self, if_true,
    Nat.add_sub_cancel_left, strncpyByte, Nat.lt_min]
  by_cases hs : i < strlen src <;> simp [hs, hia]

/-- C10: move-constructing or move-assigning from a `region` copies its
pointers into the destination and nulls the source's pointers, so the
moved-from region has `size() == 0` and no longer refers to its range; copy
construction and copy assignment leave the source unchanged. -/
theorem region_move_spec (r t : region) :
    (region.moveConstruct r).1 = r ∧
    (region.moveConstruct r).2 = ⟨0, 0⟩ ∧
    (region.moveConstruct r).2.size = 0 ∧
    (region.moveAssign t r).1 = r ∧
    (region.moveAssign t r).2 = ⟨0, 0⟩ ∧
    (region.moveAssign t r).2.size = 0 ∧
    (region.copyConstruct r).1 = r ∧
    (region.copyConstruct r).2 = r ∧
    (region.copyAssign t r).1 = r ∧
    (region.copyAssign t r).2 = r :=
  ⟨rfl, rfl, rfl, rfl, rfl, rfl, rfl, rfl, rfl, rfl⟩

/-- C1 (counter-evidence): `Pool(resourceSize = 1, allocationAmount = 1)`
followed by `acquire(2)`.  Before the call the free list is `[⟨0,1⟩]`; the
call grows it by `allocationAmount + (count - currentlyFree) = 2` blocks and
returns the last two regions in order — but the free list afterwards still
holds all three regions: the source copies the last `count` entries of
`available` without ever erasing them. -/
theorem acquire_bulk_keeps_returned_regions :
    (resource_pool.construct 1 1 0).1.available = [⟨0, 1⟩] ∧
    ((resource_pool.construct 1 1 0).1.acquire_bulk
      (resource_pool.construct 1 1 0).2 2).1 = [⟨1, 2⟩, ⟨2, 3⟩] ∧
    ((resource_pool.construct 1 1 0).1.acquire_bulk
      (resource_pool.construct 1 1 0).2 2).2.1.available =
        [⟨0, 1⟩, ⟨1, 2⟩, ⟨2, 3⟩] := by
  decide

/-- C5 (counter-evidence): `small_writer::bytes_remaining()` is declared with
return type `bool`, so the byte count is collapsed to a single bit.  A fresh
`small_writer` over a region of size 2 answers `true` although the underlying
count (`writer_base::bytes_remaining`, the value its own doc comment promises
as `size_type`) is `2`; a writer over a region of size 1 is indistinguishable
from it. -/
theorem small_writer_bytes_remaining_truncated :
    (small_writer.ofRegion ⟨0, 2⟩).bytes_remaining = true ∧
    (small_writer.ofRegion ⟨0, 2⟩).towriter_base.bytes_remaining
      (small_writer.ofRegion ⟨0, 2⟩).bufferEnd = 2 ∧
    (small_writer.ofRegion ⟨0, 1⟩).bytes_remaining =
      (small_writer.ofRegion ⟨0, 2⟩).bytes_remaining := by
  decide

/-- C4: over any valid region, a freshly constructed `writer` has
`bytes_written() = 0` and `bytes_remaining() = size()`; and after any
sequence of `write` calls, `reset()` restores `bytes_written() = 0` and
`bytes_remaining() = original size` while changing nothing else: the region
subobject is untouched, and the operation on the `(writer, memory)` pair
leaves the memory component — every byte of the region's contents —
exactly as it was. -/
theorem writer_fresh_reset_spec (reg : region) (mem : Nat → Nat)
    (ops : List WOp) (hv : reg.startPtr ≤ reg.endPtr) :
    (writer.ofRegion reg).bytes_written = 0 ∧
    (writer.ofRegion reg).bytes_remaining = reg.size ∧
    ((writer.runOps (writer.ofRegion reg, mem) ops).1.reset).bytes_written = 0 ∧
    ((writer.runOps (writer.ofRegion reg, mem) ops).1.reset).bytes_remaining = reg.size ∧
    ((writer.runOps (writer.ofRegion reg, mem) ops).1.reset).toregion = reg ∧
    (writer.resetOp (writer.runOps (writer.ofRegion reg, mem) ops)).2 =
      (writer.runOps (writer.ofRegion reg, mem) ops).2 := by
  have hr : (writer.runOps (writer.ofRegion reg, mem) ops).1.toregion = reg :=
    runOps_toregion ops (writer.ofRegion reg, mem)
  refine ⟨?_, rfl, ?_, ?_, ?_, rfl⟩
  · simp [writer.ofRegion, writer.bytes_written]
  · simp [writer.reset, writer.bytes_written]
  · simp [writer.reset, writer.bytes_remaining, writer_base.bytes_remaining,
      region.size, hr]
  · simpa [writer.reset] using hr

/-- Witness for C4 at the region `[0, 4)`, zeroed memory and one two-byte
write. -/
theorem writer_fresh_reset_spec_witness :
    (⟨0, 4⟩ : region).startPtr ≤ (⟨0, 4⟩ : region).endPtr ∧
    ((writer.ofRegion ⟨0, 4⟩).bytes_written = 0 ∧
     (writer.ofRegion ⟨0, 4⟩).bytes_remaining = (⟨0, 4⟩ : region).size ∧
     ((writer.runOps (writer.ofRegion ⟨0, 4⟩, fun _ => 0)
        [WOp.write (fun _ => 7) 2]).1.reset).bytes_written = 0 ∧
     ((writer.runOps (writer.ofRegion ⟨0, 4⟩, fun _ => 0)
        [WOp.write (fun _ => 7) 2]).1.reset).bytes_remaining = (⟨0, 4⟩ : region).size ∧
     ((writer.runOps (writer.ofRegion ⟨0, 4⟩, fun _ => 0)
        [WOp.write (fun _ => 7) 2]).1.reset).toregion = ⟨0, 4⟩ ∧
     (writer.resetOp (writer.runOps (writer.ofRegion ⟨0, 4⟩, fun _ => 0)
        [WOp.write (fun _ => 7) 2])).2 =
       (writer.runOps (writer.ofRegion ⟨0, 4⟩, fun _ => 0)
        [WOp.write (fun _ => 7) 2]).2) :=
  ⟨by decide,
   writer_fresh_reset_spec ⟨0, 4⟩ (fun _ => 0) [WOp.write (fun _ => 7) 2]
     (by decide)⟩

/-- C6: `resource_pool(R, A)` with `R, A > 0` performs exactly one initial
growth, so the free list and the allocator's owned sequence both hold `A`
entries; after each of the first `A` single `acquire()` calls the allocator
still owns exactly `A` blocks (no further growth) while the free list holds
`A - k` entries (so each call found it nonempty); the `(A+1)`-th call finds
it empty and triggers exactly one further growth of exactly `A` blocks,
leaving `A + A` blocks created in total. -/
theorem pool_growth_schedule (R A heap : Nat) (hR : 1 ≤ R) (hA : 1 ≤ A) :
    (resource_pool.construct R A heap).1.available.length = A ∧
    (resource_pool.construct R A heap).1.allocator.regions.length = A ∧
    ((List.range (A + 1)).all (fun k =>
      ((resource_pool.acquireN (resource_pool.construct R A heap) k).1.available.length == A - k) &&
      ((resource_pool.acquireN (resource_pool.construct R A heap) k).1.allocator.regions.length == A))) = true ∧
    (resource_pool.acquireN (resource_pool.construct R A heap) (A + 1)).1.allocator.regions.length = A + A ∧
    (resource_pool.acquireN (resource_pool.construct R A heap) (A + 1)).1.available.length = A - 1 := by
  obtain ⟨c1, c2, c3, c4⟩ := acquireN_construct_invariant R A heap 0 (Nat.zero_le A)
  obtain ⟨e1, e2, e3, e4⟩ := acquireN_construct_invariant R A heap A (Nat.le_refl A)
  have hemp : (resource_pool.acquireN (resource_pool.construct R A heap) A).1.available = [] := by
    rw [← List.length_eq_zero]
    rw [e1]
    omega
  obtain ⟨f1, f2, f3, f4⟩ :=
    acquire_of_empty (resource_pool.acquireN (resource_pool.construct R A heap) A).1
      (resource_pool.acquireN (resource_pool.construct R A heap) A).2 hemp
  refine ⟨?_, ?_, ?_, ?_, ?_⟩
  · simpa [resource_pool.acquireN] using c1
  · simpa [resource_pool.acquireN] using c2
  · apply List.all_eq_true.mpr
    intro k hk
    have hkA : k ≤ A := Nat.lt_succ_iff.mp (List.mem_range.mp hk)
    obtain ⟨i1, i2, _, _⟩ := acquireN_construct_invariant R A heap k hkA
    rw [Bool.and_eq_true, beq_iff_eq, beq_iff_eq]
    exact ⟨i1, i2⟩
  · rw [resource_pool.acquireN, f2, e2, e3]
  · rw [resource_pool.acquireN, f1, e3]

/-- Witness for C6 at `R = 4`, `A = 2`, heap counter `0`. -/
theorem pool_growth_schedule_witness :
    1 ≤ 4 ∧ 1 ≤ 2 ∧
    ((resource_pool.construct 4 2 0).1.available.length = 2 ∧
     (resource_pool.construct 4 2 0).1.allocator.regions.length = 2 ∧
     ((List.range (2 + 1)).all (fun k =>
       ((resource_pool.acquireN (resource_pool.construct 4 2 0) k).1.available.length == 2 - k) &&
       ((resource_pool.acquireN (resource_pool.construct 4 2 0) k).1.allocator.regions.length == 2))) = true ∧
     (resource_pool.acquireN (resource_pool.construct 4 2 0) (2 + 1)).1.allocator.regions.length = 2 + 2 ∧
     (resource_pool.acquireN (resource_pool.construct 4 2 0) (2 + 1)).1.available.length = 2 - 1) :=
  ⟨by decide, by decide, pool_growth_schedule 4 2 0 (by decide) (by decide)⟩

/-- C7: starting from any pool constructed with `allocationAmount = A ≥ 1`
and after any sequence of acquire/release operations, a call of `acquire()`
finds the free list nonempty once its (possible) growth step has run, so
taking and removing the tail element is well-defined: the call removes
exactly one element from that nonempty list.  (Growth itself is modelled as
always succeeding; in the source it can only fail through allocation
failure.) -/
theorem pool_acquire_total (R A heap : Nat) (hA : 1 ≤ A) (ops : List PoolOp) :
    ((resource_pool.runPoolOps (resource_pool.construct R A heap) ops).1.grow_step
      (resource_pool.runPoolOps (resource_pool.construct R A heap) ops).2).1.available.isEmpty = false ∧
    ((resource_pool.runPoolOps (resource_pool.construct R A heap) ops).1.acquire
      (resource_pool.runPoolOps (resource_pool.construct R A heap) ops).2).2.1.available.length + 1 =
      ((resource_pool.runPoolOps (resource_pool.construct R A heap) ops).1.grow_step
        (resource_pool.runPoolOps (resource_pool.construct R A heap) ops).2).1.available.length := by
  have hAA : (resource_pool.runPoolOps (resource_pool.construct R A heap) ops).1.allocationAmount = A := by
    rw [runPoolOps_allocationAmount]
    simp [resource_pool.construct, resource_pool.alloc_regions,
      resource_allocator.alloc_objects]
  have hne := grow_step_nonempty
    (resource_pool.runPoolOps (resource_pool.construct R A heap) ops).1
    (resource_pool.runPoolOps (resource_pool.construct R A heap) ops).2
    (by rw [hAA]; exact hA)
  refine ⟨hne, ?_⟩
  rw [show ((resource_pool.runPoolOps (resource_pool.construct R A heap) ops).1.acquire
      (resource_pool.runPoolOps (resource_pool.construct R A heap) ops).2).2.1.available =
    ((resource_pool.runPoolOps (resource_pool.construct R A heap) ops).1.grow_step
      (resource_pool.runPoolOps (resource_pool.construct R A heap) ops).2).1.available.dropLast
    from rfl]
  rw [List.length_dropLast]
  cases hv : ((resource_pool.runPoolOps (resource_pool.construct R A heap) ops).1.grow_step
      (resource_pool.runPoolOps (resource_pool.construct R A heap) ops).2).1.available with
  | nil => rw [hv] at hne; simp at hne
  | cons b l => simp

/-- Witness for C7 at `R = 1`, `A = 1`, heap counter `0` and the operation
sequence `[acquire; release ⟨5, 6⟩]`. -/
theorem pool_acquire_total_witness :
    1 ≤ 1 ∧
    ((resource_pool.runPoolOps (resource_pool.construct 1 1 0)
        [PoolOp.acquireOne, PoolOp.releaseOne ⟨5, 6⟩]).1.grow_step
      (resource_pool.runPoolOps (resource_pool.construct 1 1 0)
        [PoolOp.acquireOne, PoolOp.releaseOne ⟨5, 6⟩]).2).1.available.isEmpty = false ∧
    ((resource_pool.runPoolOps (resource_pool.construct 1 1 0)
        [PoolOp.acquireOne, PoolOp.releaseOne ⟨5, 6⟩]).1.acquire
      (resource_pool.runPoolOps (resource_pool.construct 1 1 0)
        [PoolOp.acquireOne, PoolOp.releaseOne ⟨5, 6⟩]).2).2.1.available.length + 1 =
      ((resource_pool.runPoolOps (resource_pool.construct 1 1 0)
          [PoolOp.acquireOne, PoolOp.releaseOne ⟨5, 6⟩]).1.grow_step
        (resource_pool.runPoolOps (resource_pool.construct 1 1 0)
          [PoolOp.acquireOne, PoolOp.releaseOne ⟨5, 6⟩]).2).1.available.length :=
  ⟨by decide,
   (pool_acquire_total 1 1 0 (by decide)
     [PoolOp.acquireOne, PoolOp.releaseOne ⟨5, 6⟩]).1,
   (pool_acquire_total 1 1 0 (by decide)
     [PoolOp.acquireOne, PoolOp.releaseOne ⟨5, 6⟩]).2⟩

/-- C8: `alloc_objects(resourceSize, amount, dest)` with positive arguments
appends exactly `amount` new owned blocks to the allocator's retained
sequence — the previously owned prefix is unchanged, so nothing is removed
and relative order is preserved — and appends exactly `amount` region views
to `dest` (prior elements unchanged): one view per new block, in creation
order, each of size `resourceSize`. -/
theorem alloc_objects_spec (a : resource_allocator) (heap R amount : Nat)
    (dest : List region) (hR : 1 ≤ R) (hamount : 1 ≤ amount) :
    (a.alloc_objects heap R amount dest).1.regions.take a.regions.length = a.regions ∧
    (a.alloc_objects heap R amount dest).1.regions.length = a.regions.length + amount ∧
    (a.alloc_objects heap R amount dest).2.2.take dest.length = dest ∧
    (a.alloc_objects heap R amount dest).2.2.length = dest.length + amount ∧
    (a.alloc_objects heap R amount dest).2.2.drop dest.length =
      ((a.alloc_objects heap R amount dest).1.regions.drop a.regions.length).map
        resource.toRegionView ∧
    ((a.alloc_objects heap R amount dest).2.2.drop dest.length).all
      (fun rg => rg.size == R) = true := by
  refine ⟨?_, ?_, ?_, ?_, ?_, ?_⟩ <;>
    simp [resource_allocator.alloc_objects, ranges.append_range,
      allocResources_length, List.take_left, List.drop_left,
      allocResources_sizes]

/-- Witness for C8: an allocator already owning one block, one fresh block of
size 2 appended, a destination already holding one region. -/
theorem alloc_objects_spec_witness :
    1 ≤ 2 ∧ 1 ≤ 1 ∧
    (((⟨[⟨90, 3⟩]⟩ : resource_allocator).alloc_objects 0 2 1 [⟨7, 8⟩]).1.regions.take
        (⟨[⟨90, 3⟩]⟩ : resource_allocator).regions.length =
      (⟨[⟨90, 3⟩]⟩ : resource_allocator).regions ∧
     ((⟨[⟨90, 3⟩]⟩ : resource_allocator).alloc_objects 0 2 1 [⟨7, 8⟩]).1.regions.length =
      (⟨[⟨90, 3⟩]⟩ : resource_allocator).regions.length + 1 ∧
     ((⟨[⟨90, 3⟩]⟩ : resource_allocator).alloc_objects 0 2 1 [⟨7, 8⟩]).2.2.take
        ([⟨7, 8⟩] : List region).length = [⟨7, 8⟩] ∧
     ((⟨[⟨90, 3⟩]⟩ : resource_allocator).alloc_objects 0 2 1 [⟨7, 8⟩]).2.2.length =
      ([⟨7, 8⟩] : List region).length + 1 ∧
     ((⟨[⟨90, 3⟩]⟩ : resource_allocator).alloc_objects 0 2 1 [⟨7, 8⟩]).2.2.drop
        ([⟨7, 8⟩] : List region).length =
      (((⟨[⟨90, 3⟩]⟩ : resource_allocator).alloc_objects 0 2 1 [⟨7, 8⟩]).1.regions.drop
        (⟨[⟨90, 3⟩]⟩ : resource_allocator).regions.length).map resource.toRegionView ∧
     (((⟨[⟨90, 3⟩]⟩ : resource_allocator).alloc_objects 0 2 1 [⟨7, 8⟩]).2.2.drop
        ([⟨7, 8⟩] : List region).length).all (fun rg => rg.size == 2) = true) :=
  ⟨by decide, by decide,
   alloc_objects_spec ⟨[⟨90, 3⟩]⟩ 0 2 1 [⟨7, 8⟩] (by decide) (by decide)⟩

end memory
